import Mathlib

/-!
# mcast-tools: the IGMP decoder and query sender of `mcast-query.c`

A shallow embedding of `src/mcast-query.c` and `src/igmp.h`.

* A byte is a `Nat` below 256; a buffer is a `List Nat`.
* A C pointer into the receive buffer is the list of bytes from the pointed
  position to the end of the received data (`data += k` is `List.drop k`),
  together with, where the code uses it, the numeric value of the pointer.
* A read outside the received bytes is undefined behaviour in C; here every
  read returns an `Option` and such a read makes the whole call `none`.
* `printf` output is a list of `Line` values, one per line printed, in the
  order printed. `inet_ntop` is injective on four bytes, so a printed address
  is the four bytes it was given.
* `size_t` and `uint32_t` arithmetic is `Nat` arithmetic with an explicit
  modulus where the code can wrap.
* 16-bit loads and stores in host order are little-endian.
-/

namespace McastQuery

/-! ## Data model -/

/-- Four bytes in memory order, as `struct in_addr` holds them and as
`inet_ntop(AF_INET, ...)` prints them. -/
structure InAddr where
  a : Nat
  b : Nat
  c : Nat
  d : Nat
  deriving DecidableEq

/-- The label `mcast_parse_report` prints for a group record type. -/
inductive RecLabel where
  | is_in
  | is_ex
  | to_in
  | to_ex
  | allow
  | block
  deriving DecidableEq

/-- One line of the program's standard output. -/
inductive Line where
  /-- The line `%s -> %s` with the source and destination of the IP header. -/
  | ipHeader (src dst : InAddr)
  /-- The line `IGMPv1 or IGMPv2 Query: group %s`. -/
  | legacyQuery (group : InAddr)
  /-- The line `IGMPv1 Report code:%d group:%s`. -/
  | v1Report (code : Nat) (group : InAddr)
  /-- The line `IGMPv2 Report code:%d group:%s`. -/
  | v2Report (code : Nat) (group : InAddr)
  /-- The line `IGMPv3 Query mrc:%d group:%s flags:0x%02x qqic:%d nsrc:%d`. -/
  | v3Query (mrc : Nat) (group : InAddr) (flags qqic nsrc : Nat)
  /-- The line `source %s` of a query. -/
  | querySource (src : InAddr)
  /-- The line `IGMPv3 Report nrecs:%d`. -/
  | v3Report (nrecs : Nat)
  /-- The line of a group record: its group address, the label of its type
  when the switch has one, and `nsrc:%d`. -/
  | record (group : InAddr) (label : Option RecLabel) (nsrc : Nat)
  /-- The line of one source address of a group record. -/
  | recordSource (src : InAddr)
  deriving DecidableEq

/-! ## Constants and layouts -/

/-- Modelled from the spec: `IGMP_MEMBERSHIP_QUERY` of the system header
`<netinet/igmp.h>`, type byte 0x11. -/
def IGMP_MEMBERSHIP_QUERY : Nat := 0x11

/-- Modelled from the spec: `IGMP_V1_MEMBERSHIP_REPORT` of the system header
`<netinet/igmp.h>`, type byte 0x12. -/
def IGMP_V1_MEMBERSHIP_REPORT : Nat := 0x12

/-- Modelled from the spec: `IGMP_V2_MEMBERSHIP_REPORT` of the system header
`<netinet/igmp.h>`, type byte 0x16. -/
def IGMP_V2_MEMBERSHIP_REPORT : Nat := 0x16

/-- The constant `IGMP_V3_MEMBERSHIP_REPORT` of `igmp.h`. -/
def IGMP_V3_MEMBERSHIP_REPORT : Nat := 0x22

/-- Modelled from the spec: `sizeof(struct ip)` of the system header
`<netinet/ip.h>`, the 20-byte IPv4 header without options. -/
def sizeof_ip : Nat := 20

/-- Modelled from the spec: the offset of `ip_src` in `struct ip` of the
system header `<netinet/ip.h>`. -/
def offsetof_ip_src : Nat := 12

/-- Modelled from the spec: the offset of `ip_dst` in `struct ip` of the
system header `<netinet/ip.h>`. -/
def offsetof_ip_dst : Nat := 16

/-- Modelled from the spec: the offset of `igmp_type` in `struct igmp` of the
system header `<netinet/igmp.h>`, byte 0 of the payload. -/
def offsetof_igmp_type : Nat := 0

/-- Modelled from the spec: the offset of `igmp_code` in `struct igmp` of the
system header `<netinet/igmp.h>`, byte 1 of the payload. -/
def offsetof_igmp_code : Nat := 1

/-- Modelled from the spec: the offset of `igmp_group` in `struct igmp` of the
system header `<netinet/igmp.h>`, bytes 4-7 of the payload. -/
def offsetof_igmp_group : Nat := 4

/-- The size of `struct igmpv3_query` of `igmp.h`: 1+1+2+4+1+1+2 bytes. -/
def sizeof_igmpv3_query : Nat := 12

/-- The size of `struct igmpv3_report` of `igmp.h`: 1+1+2+2+2 bytes. -/
def sizeof_igmpv3_report : Nat := 8

/-- The size of `struct igmp_record` of `igmp.h`: 1+1+2+4 bytes. -/
def sizeof_igmp_record : Nat := 8

/-- The modulus of `size_t` arithmetic. -/
def SIZE_MAX1 : Nat := 2 ^ 64

/-! ## Reads -/

/-- Load the byte at `off` past the pointer; `none` outside the buffer. -/
def read8 (data : List Nat) (off : Nat) : Option Nat :=
  data[off]?

/-- Load a 16-bit field and apply `ntohs`: the big-endian value of two bytes. -/
def read16be (data : List Nat) (off : Nat) : Option Nat := do
  let hi ← read8 data off
  let lo ← read8 data (off + 1)
  pure (256 * hi + lo)

/-- Load the four bytes of a `struct in_addr` at `off` past the pointer. -/
def readAddr (data : List Nat) (off : Nat) : Option InAddr := do
  let a ← read8 data off
  let b ← read8 data (off + 1)
  let c ← read8 data (off + 2)
  let d ← read8 data (off + 3)
  pure ⟨a, b, c, d⟩

/-- The first four bytes of the object representation of a pointer whose
numeric value is `p` (little-endian). -/
def ptrBytes (p : Nat) : InAddr :=
  ⟨p % 256, p / 256 % 256, p / 65536 % 256, p / 16777216 % 256⟩

/-! ## `in_cksum` -/

/-- The first loop of `in_cksum`: add the 16-bit words of the range, loaded in
host order, to the `uint32_t` accumulator; a last single byte is added as a
byte. -/
def sumWords : List Nat → Nat → Nat
  | [], sum => sum
  | [a], sum => (sum + a) % 2 ^ 32
  | a :: b :: rest, sum => sumWords rest ((sum + (a + 256 * b)) % 2 ^ 32)

/-- The second loop of `in_cksum`:
`while (sum >> 16) sum = (sum >> 16) + (sum & 0xffff);`. -/
def foldCarry (sum : Nat) : Nat :=
  if h : sum / 65536 = 0 then sum
  else foldCarry (sum / 65536 + sum % 65536)
termination_by sum
decreasing_by omega

/-- The function `in_cksum(data, data_len)`, the range given as the list of
its `data_len` bytes; the result is `~sum` converted to `uint16_t`. -/
def in_cksum (data : List Nat) : Nat :=
  (0xffffffff - foldCarry (sumWords data 0)) % 65536

/-! ## `mcast_parse_query` -/

/-- The loop of `mcast_parse_query`, `n` iterations left and `p` the numeric
value of the pointer `data`. Each iteration prints the address that
`inet_ntop(AF_INET, &data, ...)` formats, that is the first four bytes of the
pointer variable itself, and advances `data` by `sizeof(struct in_addr)`. -/
def queryLoop : Nat → Nat → List Line
  | 0, _ => []
  | n + 1, p => Line.querySource (ptrBytes p) :: queryLoop n (p + 4)

/-- The function `mcast_parse_query(data, data_len)`; `addr` is the numeric
value of `data`. -/
def mcast_parse_query (addr : Nat) (data : List Nat) (data_len : Nat) :
    Option (List Line) :=
  if data_len < sizeof_igmpv3_query then some []
  else do
    let group ← readAddr data 4
    let mrc ← read8 data 1
    let flags ← read8 data 8
    let qqic ← read8 data 9
    let nsrc ← read16be data 10
    some (Line.v3Query mrc group flags qqic nsrc ::
      queryLoop nsrc (addr + sizeof_igmpv3_query))

/-! ## `mcast_parse_report` -/

/-- The `switch (gr->gr_type)` of `mcast_parse_report`. -/
def recordLabel (gr_type : Nat) : Option RecLabel :=
  if gr_type = 1 then some RecLabel.is_in
  else if gr_type = 2 then some RecLabel.is_ex
  else if gr_type = 3 then some RecLabel.to_in
  else if gr_type = 4 then some RecLabel.to_ex
  else if gr_type = 5 then some RecLabel.allow
  else if gr_type = 6 then some RecLabel.block
  else none

/-- The inner loop of `mcast_parse_report`, `nsrcs` iterations left: print the
address at `data`, advance `data` and decrease `data_len` by four. Returns the
lines printed and the final `data` and `data_len`. The subtraction cannot
wrap: the caller checked `data_len >= nsrc * 4`. -/
def sourceLoop : Nat → List Nat → Nat → Option (List Line × List Nat × Nat)
  | 0, data, data_len => some ([], data, data_len)
  | nsrcs + 1, data, data_len => do
    let src ← readAddr data 0
    let (out, data1, data_len1) ← sourceLoop nsrcs (data.drop 4) (data_len - 4)
    some (Line.recordSource src :: out, data1, data_len1)

/-- The outer loop of `mcast_parse_report`, `nrecs` iterations left. Either
`return` ends the call with what was printed so far. The subtraction of
`sizeof(struct igmp_record)` cannot wrap: it follows the length check. -/
def recordLoop : Nat → List Nat → Nat → Option (List Line)
  | 0, _, _ => some []
  | nrecs + 1, data, data_len =>
    if data_len < sizeof_igmp_record then some []
    else do
      let group ← readAddr data 4
      let gr_type ← read8 data 0
      let nsrc ← read16be data 2
      let hdr := Line.record group (recordLabel gr_type) nsrc
      let data1 := data.drop sizeof_igmp_record
      let data_len1 := data_len - sizeof_igmp_record
      let rectotal := nsrc * 4
      if data_len1 < rectotal then some [hdr]
      else do
        let (srcs, data2, data_len2) ← sourceLoop nsrc data1 data_len1
        let rest ← recordLoop nrecs data2 data_len2
        some (hdr :: (srcs ++ rest))

/-- The function `mcast_parse_report(data, data_len)`. -/
def mcast_parse_report (data : List Nat) (data_len : Nat) : Option (List Line) :=
  if data_len < sizeof_igmpv3_report then some []
  else do
    let nrec ← read16be data 6
    let rest ← recordLoop nrec (data.drop sizeof_igmpv3_report)
      (data_len - sizeof_igmpv3_report)
    some (Line.v3Report nrec :: rest)

/-! ## `mcast_parse` -/

/-- The `switch (igmp->igmp_type)` of `mcast_parse`, on the payload pointer
`data` (numeric value `addr`) and the payload length `data_len`. -/
def igmpSwitch (addr : Nat) (data : List Nat) (data_len : Nat) :
    Option (List Line) := do
  let igmp_type ← read8 data offsetof_igmp_type
  if igmp_type = IGMP_MEMBERSHIP_QUERY then
    if data_len ≥ sizeof_igmpv3_query then mcast_parse_query addr data data_len
    else do
      let group ← readAddr data offsetof_igmp_group
      some [Line.legacyQuery group]
  else if igmp_type = IGMP_V1_MEMBERSHIP_REPORT ∨
      igmp_type = IGMP_V2_MEMBERSHIP_REPORT then do
    let group ← readAddr data offsetof_igmp_group
    let code ← read8 data offsetof_igmp_code
    if igmp_type = IGMP_V1_MEMBERSHIP_REPORT then some [Line.v1Report code group]
    else some [Line.v2Report code group]
  else if igmp_type = IGMP_V3_MEMBERSHIP_REPORT then
    mcast_parse_report data data_len
  else some []

/-- The statement `data_len -= ip->ip_hl << 2` of `mcast_parse`: a `size_t`
subtraction, which wraps when the header length exceeds `data_len`. -/
def payloadLen (data_len hlen : Nat) : Nat :=
  (data_len + SIZE_MAX1 - hlen) % SIZE_MAX1

/-- The function `mcast_parse(data, data_len)`; `addr` is the numeric value of
`data`. The bit-field `ip_hl` is the low nibble of the first byte. -/
def mcast_parse (addr : Nat) (data : List Nat) (data_len : Nat) :
    Option (List Line) :=
  if data_len < sizeof_ip then some []
  else do
    let b0 ← read8 data 0
    let hlen := (b0 % 16) * 4
    let payload := data.drop hlen
    let payload_len := payloadLen data_len hlen
    let src ← readAddr data offsetof_ip_src
    let dst ← readAddr data offsetof_ip_dst
    let rest ← igmpSwitch (addr + hlen) payload payload_len
    some (Line.ipHeader src dst :: rest)

/-! ## `mcast_send_query` -/

/-- The `struct igmpv3_query` of `igmp.h`. `iq_cksum` and `iq_nsrc` are the
16-bit values of the fields in host order. -/
structure igmpv3_query where
  iq_type : Nat
  iq_mrc : Nat
  iq_cksum : Nat
  iq_group : InAddr
  iq_flags : Nat
  iq_qqic : Nat
  iq_nsrc : Nat
  deriving DecidableEq

/-- The twelve bytes of a `struct igmpv3_query` in memory. -/
def igmpv3_query.bytes (iq : igmpv3_query) : List Nat :=
  [iq.iq_type, iq.iq_mrc, iq.iq_cksum % 256, iq.iq_cksum / 256,
   iq.iq_group.a, iq.iq_group.b, iq.iq_group.c, iq.iq_group.d,
   iq.iq_flags, iq.iq_qqic, iq.iq_nsrc % 256, iq.iq_nsrc / 256]

/-- The function `mcast_send_query`: `iq0` is the content of the automatic
variable `iq` at its declaration, which has no initialiser; the result is the
message handed to `sendmsg`. -/
def mcast_send_query (iq0 : igmpv3_query) : List Nat :=
  let iq1 := { iq0 with iq_type := IGMP_MEMBERSHIP_QUERY }
  let iq2 := { iq1 with iq_mrc := 100 }
  let iq3 := { iq2 with iq_group := ⟨0, 0, 0, 0⟩ }
  let iq4 := { iq3 with iq_flags := 2 }
  let iq5 := { iq4 with iq_qqic := 125 }
  let iq6 := { iq5 with iq_nsrc := 0 }
  let iq7 := { iq6 with iq_cksum := in_cksum iq6.bytes }
  iq7.bytes

/-! ## The Internet checksum as the specification words it -/

/-- The 16-bit big-endian words of a byte range; the trailing byte of an
odd-length range is the high-order byte of a zero-padded final word. -/
def beWords : List Nat → List Nat
  | [] => []
  | [a] => [256 * a]
  | a :: b :: rest => (256 * a + b) :: beWords rest

/-- The checksum of section 4.2: a 32-bit running sum of the big-endian
words, carries folded until none remains, then the ones-complement of the low
16 bits. -/
def inetChecksum (bytes : List Nat) : Nat :=
  65535 - foldCarry ((beWords bytes).foldl (fun s w => (s + w) % 2 ^ 32) 0) % 65536

/-- The two bytes a 16-bit value occupies in network order. -/
def networkOrder16 (v : Nat) : List Nat := [v / 256, v % 256]

/-- The two bytes a 16-bit value occupies when stored in host order. -/
def hostOrder16 (v : Nat) : List Nat := [v % 256, v / 256]

/-- Store a 16-bit value in host order at offset `off` of a buffer. -/
def store16 (buf : List Nat) (off : Nat) (v : Nat) : List Nat :=
  (buf.set off (v % 256)).set (off + 1) (v / 256)

/-! ## The wire format of section 6 -/

/-- The four bytes of an address on the wire. -/
def InAddr.bytes (x : InAddr) : List Nat := [x.a, x.b, x.c, x.d]

/-- A group record of an IGMPv3 Report: type, group address, source
addresses and auxiliary data. Its source count is `sources.length`, its
`auxlen` is `aux.length / 4`. -/
structure WireRecord where
  gr_type : Nat
  group : InAddr
  sources : List InAddr
  aux : List Nat
  deriving DecidableEq

/-- The source addresses of a record on the wire, four bytes each. -/
def encodeSources (srcs : List InAddr) : List Nat :=
  srcs.flatMap InAddr.bytes

/-- A group record on the wire: the 8-byte header (type, auxlen, source count
in network order, group address), the source addresses, the auxiliary data. -/
def WireRecord.encode (r : WireRecord) : List Nat :=
  [r.gr_type, r.aux.length / 4, r.sources.length / 256, r.sources.length % 256]
    ++ r.group.bytes ++ encodeSources r.sources ++ r.aux

/-- A sequence of group records on the wire. -/
def encodeRecords (rs : List WireRecord) : List Nat :=
  rs.flatMap WireRecord.encode

/-- The 8-byte header of an IGMPv3 Report: type, reserved, checksum (2),
reserved (2), record count in network order. -/
def reportHeader (ty rsv1 ck0 ck1 rsv2 rsv3 nrec : Nat) : List Nat :=
  [ty, rsv1, ck0, ck1, rsv2, rsv3, nrec / 256, nrec % 256]

/-- What a decoder reports for one group record: its group, type and source
count, then its source addresses in order. -/
def WireRecord.lines (r : WireRecord) : List Line :=
  Line.record r.group (recordLabel r.gr_type) r.sources.length ::
    r.sources.map Line.recordSource

/-- A line that reports a group record or one of its source addresses. -/
def Line.isRecordOutput : Line → Bool
  | Line.record _ _ _ => true
  | Line.recordSource _ => true
  | _ => false

/-- A line that reports a source address of a query. -/
def Line.isQuerySource : Line → Bool
  | Line.querySource _ => true
  | _ => false

/-- The source count declared by the record header at the start of `tail`. -/
def declaredSources : List Nat → Nat
  | _ :: _ :: n1 :: n0 :: _ => 256 * n1 + n0
  | _ => 0

/-- The bytes left for the next record are too few: fewer than 8 for its
header, or fewer than four times its declared source count after the header. -/
def Truncated (tail : List Nat) : Prop :=
  tail.length < 8 ∨ tail.length - 8 < 4 * declaredSources tail

instance (tail : List Nat) : Decidable (Truncated tail) := by
  unfold Truncated; infer_instance

/-- The header line of the record at the start of `tail`, when all 8 bytes of
its header are there. -/
def headerLine : List Nat → List Line
  | t :: _ :: n1 :: n0 :: a :: b :: c :: d :: _ =>
    [Line.record ⟨a, b, c, d⟩ (recordLabel t) (256 * n1 + n0)]
  | _ => []

/-- The classification of section 4.3 on a payload of at least 8 bytes: by the
first byte and the length alone. -/
def classify (addr : Nat) (payload : List Nat) : Option (List Line) :=
  let t := payload.getD 0 0
  let code := payload.getD 1 0
  let group : InAddr :=
    ⟨payload.getD 4 0, payload.getD 5 0, payload.getD 6 0, payload.getD 7 0⟩
  if t = 0x11 then
    if 12 ≤ payload.length then mcast_parse_query addr payload payload.length
    else some [Line.legacyQuery group]
  else if t = 0x12 then some [Line.v1Report code group]
  else if t = 0x16 then some [Line.v2Report code group]
  else if t = 0x22 then mcast_parse_report payload payload.length
  else some []

/-! ## Concrete inputs -/

/-- The twelve bytes 11 64 00 00 00 00 00 00 02 7D 00 00: a General Query
(type 0x11, mrc 100, group 0.0.0.0, flags 2, qqic 125, nsrc 0) with a zero
checksum field. -/
def generalQueryBytes : List Nat := [0x11, 0x64, 0, 0, 0, 0, 0, 0, 2, 0x7d, 0, 0]

/-- A record of type 1 for 224.1.1.1 with the single source 10.0.0.1. -/
def recordOneSource : WireRecord := ⟨1, ⟨224, 1, 1, 1⟩, [⟨10, 0, 0, 1⟩], []⟩

/-- A record of type 2 for 224.2.2.2 with `auxlen = 0` and `nsrc = 0`. -/
def recordNoSource : WireRecord := ⟨2, ⟨224, 2, 2, 2⟩, [], []⟩

/-- The 8-byte header of a record for 224.3.3.3 that declares one source, with
no byte after it. -/
def cutRecord : List Nat := [3, 0, 0, 1, 224, 3, 3, 3]

/-- A packet of 28 bytes: a 20-byte IP header (`ip_hl = 5`) from 192.168.0.1
to 224.0.0.22 and an IGMPv2 Report for 224.1.1.1 with code 9. -/
def v2ReportPacket : List Nat :=
  [0x45, 0, 0, 28, 0, 0, 0, 0, 1, 2, 0, 0, 192, 168, 0, 1, 224, 0, 0, 22,
   0x16, 9, 0, 0, 224, 1, 1, 1]

/-! ## Lemmas on `in_cksum` -/

/-- The sum of the host-order words of a range, without wrap-around. -/
def leSum : List Nat → Nat
  | [] => 0
  | [a] => a
  | a :: b :: rest => a + 256 * b + leSum rest

/-- The sum of the big-endian words of a range, without wrap-around. -/
def beSum : List Nat → Nat
  | [] => 0
  | [a] => 256 * a
  | a :: b :: rest => 256 * a + b + beSum rest

theorem foldCarry_closed (s : Nat) :
    foldCarry s = if s = 0 then 0 else (s - 1) % 65535 + 1 := by
  induction s using Nat.strong_induction_on with
  | _ s ih =>
    unfold foldCarry
    split
    · split <;> omega
    · have hlt : s / 65536 + s % 65536 < s := by omega
      rw [ih _ hlt]
      split <;> split <;> omega

theorem foldCarry_props (s : Nat) :
    foldCarry s ≤ 65535 ∧ (foldCarry s = 0 ↔ s = 0) ∧
      foldCarry s % 65535 = s % 65535 := by
  rw [foldCarry_closed]
  split <;> omega

theorem swap_arith (x y : Nat) (hx : x ≤ 65535) (hy : y ≤ 65535)
    (h0 : x = 0 ↔ y = 0) (hm : (256 * x) % 65535 = y % 65535) :
    y = 256 * (x % 256) + x / 256 := by
  omega

theorem swap_uv (u v : Nat) (hu : u < 256) (hv : v < 256) :
    (u + 256 * v) % 256 = (v + 256 * u) / 256 ∧
      (u + 256 * v) / 256 = (v + 256 * u) % 256 := by
  rw [Nat.add_mul_mod_self_left, Nat.add_mul_div_left _ _ (by norm_num),
    Nat.add_mul_mod_self_left, Nat.add_mul_div_left _ _ (by norm_num),
    Nat.mod_eq_of_lt hu, Nat.mod_eq_of_lt hv, Nat.div_eq_of_lt hu, Nat.div_eq_of_lt hv]
  omega

theorem swap_pq (p q : Nat) (hp : p < 256) (hq : q < 256) :
    (65535 - (p + 256 * q)) % 256 = (65535 - (256 * p + q) % 65536) / 256 ∧
      (65535 - (p + 256 * q)) / 256 = (65535 - (256 * p + q) % 65536) % 256 := by
  have h1 : (256 * p + q) % 65536 = 256 * p + q := Nat.mod_eq_of_lt (by omega)
  have h2 : 65535 - (p + 256 * q) = (255 - p) + 256 * (255 - q) := by omega
  have h3 : 65535 - (256 * p + q) = (255 - q) + 256 * (255 - p) := by omega
  rw [h1, h2, h3]
  exact swap_uv _ _ (by omega) (by omega)

theorem swap_bytes (x y : Nat) (hx : x ≤ 65535)
    (hy : y = 256 * (x % 256) + x / 256) :
    (65535 - x) % 256 = (65535 - y % 65536) / 256 ∧
      (65535 - x) / 256 = (65535 - y % 65536) % 256 := by
  have h := swap_pq (x % 256) (x / 256) (Nat.mod_lt _ (by norm_num)) (by omega)
  rw [Nat.mod_add_div] at h
  rw [hy]; exact h

theorem sumWords_eq (l : List Nat) : ∀ s, s < 2 ^ 32 →
    sumWords l s = (s + leSum l) % 2 ^ 32 := by
  induction l using leSum.induct with
  | case1 => intro s hs; simp [sumWords, leSum]; omega
  | case2 a => intro s _; simp [sumWords, leSum]
  | case3 a b rest ih =>
    intro s _
    simp only [sumWords, leSum]
    rw [ih _ (Nat.mod_lt _ (by norm_num))]
    omega

theorem leSum_bound (l : List Nat) : (∀ x ∈ l, x < 256) →
    2 * leSum l ≤ 65535 * (l.length + 1) := by
  induction l using leSum.induct with
  | case1 => intro _; simp [leSum]
  | case2 a =>
    intro h
    have := h a (by simp)
    simp only [leSum, List.length_cons, List.length_nil]
    omega
  | case3 a b rest ih =>
    intro h
    have ha := h a (by simp)
    have hb := h b (by simp)
    have := ih (fun x hx => h x (by simp [hx]))
    simp only [leSum, List.length_cons]
    omega

theorem beSum_bound (l : List Nat) : (∀ x ∈ l, x < 256) →
    2 * beSum l ≤ 65535 * (l.length + 1) + 65535 := by
  induction l using beSum.induct with
  | case1 => intro _; simp [beSum]
  | case2 a =>
    intro h
    have := h a (by simp)
    simp only [beSum, List.length_cons, List.length_nil]
    omega
  | case3 a b rest ih =>
    intro h
    have ha := h a (by simp)
    have hb := h b (by simp)
    have := ih (fun x hx => h x (by simp [hx]))
    simp only [beSum, List.length_cons]
    omega

theorem beWords_foldl (l : List Nat) : ∀ s, s < 2 ^ 32 →
    (beWords l).foldl (fun s w => (s + w) % 2 ^ 32) s = (s + beSum l) % 2 ^ 32 := by
  induction l using beSum.induct with
  | case1 => intro s hs; simp [beWords, beSum]; omega
  | case2 a => intro s _; simp [beWords, beSum]
  | case3 a b rest ih =>
    intro s _
    simp only [beWords, beSum, List.foldl_cons]
    rw [ih _ (Nat.mod_lt _ (by norm_num))]
    omega

theorem swap_congr (l : List Nat) :
    (256 * leSum l) % 65535 = beSum l % 65535 ∧ (leSum l = 0 ↔ beSum l = 0) := by
  induction l using leSum.induct with
  | case1 => simp [leSum, beSum]
  | case2 a => simp [leSum, beSum]
  | case3 a b rest ih =>
    simp only [leSum, beSum]
    omega

theorem in_cksum_eq (l : List Nat) (hlen : l.length ≤ 65536) (hb : ∀ x ∈ l, x < 256) :
    in_cksum l = 65535 - foldCarry (leSum l) := by
  have h1 := leSum_bound l hb
  unfold in_cksum
  rw [sumWords_eq l 0 (by norm_num), foldCarry_closed, foldCarry_closed]
  have h2 : (0 + leSum l) % 2 ^ 32 = leSum l := by omega
  rw [h2]
  split <;> omega

/-! ## Claims on `in_cksum` -/

/-- C6: for a range of at most 65536 bytes, the two bytes of the result of
`in_cksum` stored in host order are the network-order bytes of the Internet
checksum of the range (big-endian words, a trailing odd byte as the high-order
byte of a zero-padded word, carries folded, ones-complement of the low 16
bits); the empty range gives 0xffff. -/
theorem in_cksum_is_internet_checksum (bytes : List Nat)
    (hlen : bytes.length ≤ 65536) (hb : ∀ x ∈ bytes, x < 256) :
    hostOrder16 (in_cksum bytes) = networkOrder16 (inetChecksum bytes) ∧
    (bytes = [] → in_cksum bytes = 0xffff ∧ inetChecksum bytes = 0xffff) := by
  have hle := leSum_bound bytes hb
  have hbe := beSum_bound bytes hb
  have hsw := swap_congr bytes
  have hc := in_cksum_eq bytes hlen hb
  have hi : inetChecksum bytes = 65535 - foldCarry (beSum bytes) % 65536 := by
    unfold inetChecksum
    rw [beWords_foldl bytes 0 (by norm_num)]
    have h2 : (0 + beSum bytes) % 2 ^ 32 = beSum bytes := by omega
    rw [h2]
  obtain ⟨hx, hx0, hxm⟩ := foldCarry_props (leSum bytes)
  obtain ⟨hy, hy0, hym⟩ := foldCarry_props (beSum bytes)
  have hm : (256 * foldCarry (leSum bytes)) % 65535
      = foldCarry (beSum bytes) % 65535 := by
    have h1 := hsw.1
    omega
  have h0 : foldCarry (leSum bytes) = 0 ↔ foldCarry (beSum bytes) = 0 := by
    rw [hx0, hy0]; exact hsw.2
  have hs := swap_arith _ _ hx hy h0 hm
  constructor
  · simp only [hostOrder16, networkOrder16, hc, hi, List.cons.injEq, and_true]
    exact swap_bytes _ _ hx hs
  · intro he
    subst he
    rw [foldCarry_closed] at hc hi
    simp only [leSum, beSum] at hc hi
    simp [hc, hi]

/-- C6, at the twelve bytes of a General Query with a zero checksum field. -/
theorem in_cksum_is_internet_checksum_witness :
    (generalQueryBytes.length ≤ 65536 ∧ ∀ x ∈ generalQueryBytes, x < 256) ∧
    (hostOrder16 (in_cksum generalQueryBytes)
        = networkOrder16 (inetChecksum generalQueryBytes) ∧
      (generalQueryBytes = [] →
        in_cksum generalQueryBytes = 0xffff ∧ inetChecksum generalQueryBytes = 0xffff)) :=
  ⟨⟨by decide, by decide⟩,
    in_cksum_is_internet_checksum generalQueryBytes (by decide) (by decide)⟩

/-- C7: checksum self-check. For an even-length range of 4 to 65536 bytes
whose bytes 2 and 3 are zero, storing `in_cksum` of the range into bytes 2-3 in
host order and running `in_cksum` again gives 0. -/
theorem in_cksum_self_check (b : List Nat)
    (heven : b.length % 2 = 0) (h4 : 4 ≤ b.length) (hlen : b.length ≤ 65536)
    (hb : ∀ x ∈ b, x < 256) (h2 : b[2]? = some 0) (h3 : b[3]? = some 0) :
    in_cksum (store16 b 2 (in_cksum b)) = 0 := by
  match b, h4 with
  | a0 :: a1 :: a2 :: a3 :: rest, _ =>
    simp only [List.getElem?_cons_succ, List.getElem?_cons_zero, Option.some.injEq] at h2 h3
    subst h2 h3
    have hc := in_cksum_eq _ hlen hb
    have hcl : in_cksum (a0 :: a1 :: 0 :: 0 :: rest) < 65536 := by
      unfold in_cksum; omega
    generalize in_cksum (a0 :: a1 :: 0 :: 0 :: rest) = c at hc hcl
    have hst : store16 (a0 :: a1 :: 0 :: 0 :: rest) 2 c
        = a0 :: a1 :: (c % 256) :: (c / 256) :: rest := by
      simp [store16, List.set]
    rw [hst]
    have hb2 : ∀ x ∈ a0 :: a1 :: (c % 256) :: (c / 256) :: rest, x < 256 := by
      intro x hx
      simp only [List.mem_cons] at hx
      rcases hx with h | h | h | h | h
      · exact h ▸ hb a0 (by simp)
      · exact h ▸ hb a1 (by simp)
      · omega
      · omega
      · exact hb x (by simp [h])
    have hc2 := in_cksum_eq (a0 :: a1 :: (c % 256) :: (c / 256) :: rest)
      (by simpa using hlen) hb2
    rw [hc2]
    rw [foldCarry_closed] at hc ⊢
    simp only [leSum] at hc ⊢
    split at hc <;> split <;> omega

/-- C7, at the twelve bytes 11 64 00 00 00 00 00 00 02 7D 00 00. -/
theorem in_cksum_self_check_witness :
    (generalQueryBytes.length % 2 = 0 ∧ 4 ≤ generalQueryBytes.length ∧
      generalQueryBytes.length ≤ 65536 ∧ (∀ x ∈ generalQueryBytes, x < 256) ∧
      generalQueryBytes[2]? = some 0 ∧ generalQueryBytes[3]? = some 0) ∧
    in_cksum (store16 generalQueryBytes 2 (in_cksum generalQueryBytes)) = 0 :=
  ⟨⟨by decide, by decide, by decide, by decide, by decide, by decide⟩,
    in_cksum_self_check generalQueryBytes
      (by decide) (by decide) (by decide) (by decide) (by decide) (by decide)⟩

/-! ## `mcast_send_query` and the checksum field -/

/-- The value of `in_cksum` on a range of at most 65536 bytes, in closed
form. -/
theorem in_cksum_eval (l : List Nat) (hlen : l.length ≤ 65536)
    (hb : ∀ x ∈ l, x < 256) :
    in_cksum l = 65535 - (if leSum l = 0 then 0 else (leSum l - 1) % 65535 + 1) := by
  rw [in_cksum_eq l hlen hb, foldCarry_closed]

/-- C8: when the storage of `iq` holds 0x1234 in the checksum field (and
other stale bytes elsewhere) at the declaration, the checksum is computed over
that stale value: the message sent is 11 64 B8 0C 00 00 00 00 02 7D 00 00 and
`in_cksum` over it is 0x1234, not 0. -/
theorem mcast_send_query_stale_cksum :
    mcast_send_query ⟨0xaa, 0xbb, 0x1234, ⟨1, 2, 3, 4⟩, 5, 6, 7⟩
      = [0x11, 100, 0xb8, 0x0c, 0, 0, 0, 0, 2, 125, 0, 0] ∧
    in_cksum (mcast_send_query ⟨0xaa, 0xbb, 0x1234, ⟨1, 2, 3, 4⟩, 5, 6, 7⟩) = 0x1234 := by
  have h1 : in_cksum [0x11, 100, 0x1234 % 256, 0x1234 / 256, 0, 0, 0, 0, 2, 125, 0 % 256, 0 / 256]
      = 0x0cb8 := by
    rw [in_cksum_eval _ (by decide) (by decide)]
    decide
  have h2 : in_cksum [0x11, 100, 0xb8, 0x0c, 0, 0, 0, 0, 2, 125, 0, 0] = 0x1234 := by
    rw [in_cksum_eval _ (by decide) (by decide)]
    decide
  have h3 : mcast_send_query ⟨0xaa, 0xbb, 0x1234, ⟨1, 2, 3, 4⟩, 5, 6, 7⟩
      = [0x11, 100, 0xb8, 0x0c, 0, 0, 0, 0, 2, 125, 0, 0] := by
    simp only [mcast_send_query, igmpv3_query.bytes, IGMP_MEMBERSHIP_QUERY, h1]
  rw [h3]
  exact ⟨rfl, h2⟩

/-! ## Lemmas on the decoder loops -/

theorem sourceLoop_encode (srcs : List InAddr) (rest : List Nat) :
    sourceLoop srcs.length (encodeSources srcs ++ rest) (4 * srcs.length + rest.length)
      = some (srcs.map Line.recordSource, rest, rest.length) := by
  induction srcs with
  | nil => simp [sourceLoop, encodeSources]
  | cons s ss ih =>
    have hl : 4 * (ss.length + 1) + rest.length - 4 = 4 * ss.length + rest.length := by omega
    simp only [encodeSources] at ih
    simp [sourceLoop, encodeSources, InAddr.bytes, readAddr, read8, hl, ih]

theorem encodeSources_length (srcs : List InAddr) :
    (encodeSources srcs).length = 4 * srcs.length := by
  induction srcs with
  | nil => simp [encodeSources]
  | cons s ss ih =>
    simp only [encodeSources] at ih
    simp [encodeSources, InAddr.bytes, ih]
    omega

theorem recordLoop_step (r : WireRecord) (m : Nat) (rest : List Nat)
    (hs : r.sources.length < 65536) (ha : r.aux = []) :
    recordLoop (m + 1) (r.encode ++ rest) (r.encode ++ rest).length
      = (recordLoop m rest rest.length).map (fun out => r.lines ++ out) := by
  have hns : 256 * (r.sources.length / 256) + r.sources.length % 256 = r.sources.length := by
    omega
  have henc : r.encode ++ rest
      = r.gr_type :: 0 :: (r.sources.length / 256) :: (r.sources.length % 256)
          :: r.group.a :: r.group.b :: r.group.c :: r.group.d
          :: (encodeSources r.sources ++ rest) := by
    simp [WireRecord.encode, InAddr.bytes, ha]
  have hlen : (r.encode ++ rest).length = 4 * r.sources.length + rest.length + 8 := by
    rw [henc]
    simp only [List.length_cons, List.length_append, encodeSources_length]
  rw [hlen, henc]
  have hsl := sourceLoop_encode r.sources rest
  have h1 : ¬ (4 * r.sources.length + rest.length + 8 < 8) := by omega
  have h2 : 4 * r.sources.length + rest.length + 8 - 8 = 4 * r.sources.length + rest.length := by
    omega
  have h3 : ¬ (4 * r.sources.length + rest.length < r.sources.length * 4) := by omega
  simp only [recordLoop, sizeof_igmp_record, h1, h2, h3, if_false, readAddr, read8, read16be,
    List.getElem?_cons_succ, List.getElem?_cons_zero, Option.bind_eq_bind, Option.some_bind,
    Option.pure_def, List.drop_succ_cons, List.drop_zero, hns, hsl, WireRecord.lines]
  cases recordLoop m rest rest.length <;> simp

theorem recordLoop_encode (rs : List WireRecord) :
    ∀ (n : Nat) (tail : List Nat), rs.length ≤ n →
      (∀ r ∈ rs, r.sources.length < 65536 ∧ r.aux = []) →
      recordLoop n (encodeRecords rs ++ tail) (encodeRecords rs ++ tail).length
        = (recordLoop (n - rs.length) tail tail.length).map
            (fun rest => rs.flatMap WireRecord.lines ++ rest) := by
  induction rs with
  | nil => intro n tail _ _; simp [encodeRecords]
  | cons r rs ih =>
    intro n tail hn hr
    obtain ⟨m, rfl⟩ : ∃ m, n = m + 1 := ⟨n - 1, by simp at hn; omega⟩
    have hr1 := hr r (by simp)
    have hm : rs.length ≤ m := by simpa using hn
    have ih2 := ih m tail hm (fun x hx => hr x (by simp [hx]))
    have henc : encodeRecords (r :: rs) ++ tail = r.encode ++ (encodeRecords rs ++ tail) := by
      simp [encodeRecords]
    rw [henc, recordLoop_step r m _ hr1.1 hr1.2, ih2]
    have hsub : m + 1 - (r :: rs).length = m - rs.length := by simp
    rw [hsub]
    cases recordLoop (m - rs.length) tail tail.length <;> simp

theorem read16be_encode (n : Nat) (h0 h1 h2 h3 h4 h5 : Nat) (rest : List Nat) :
    read16be (reportHeader h0 h1 h2 h3 h4 h5 n ++ rest) 6 = some n := by
  simp [read16be, read8, reportHeader]
  omega

theorem recordLoop_truncated (k : Nat) (tail : List Nat) (ht : Truncated tail) :
    recordLoop (k + 1) tail tail.length = some (headerLine tail) := by
  rcases tail with _ | ⟨t, _ | ⟨x, _ | ⟨n1, _ | ⟨n0, _ | ⟨a, _ | ⟨b, _ | ⟨c, _ | ⟨d, rest⟩⟩⟩⟩⟩⟩⟩⟩
  case cons.cons.cons.cons.cons.cons.cons.cons =>
    have h1 : rest.length < (256 * n1 + n0) * 4 := by
      simp only [Truncated, declaredSources, List.length_cons] at ht
      omega
    have h0 : ¬ (rest.length + 1 + 1 + 1 + 1 + 1 + 1 + 1 + 1 < 8) := by omega
    have h2 : rest.length + 1 + 1 + 1 + 1 + 1 + 1 + 1 + 1 - 8 = rest.length := by omega
    simp only [recordLoop, sizeof_igmp_record, headerLine, List.length_cons, h0, h1, h2,
      if_false, if_true, readAddr, read8, read16be, List.getElem?_cons_succ,
      List.getElem?_cons_zero, Option.bind_eq_bind, Option.some_bind, Option.pure_def]
  all_goals simp [recordLoop, sizeof_igmp_record, headerLine]

theorem read8_of_lt (data : List Nat) (off : Nat) (h : off < data.length) :
    read8 data off = some (data.getD off 0) := by
  simp [read8, List.getD_eq_getElem?_getD, List.getElem?_eq_getElem h]

theorem readAddr_of_lt (data : List Nat) (off : Nat) (h : off + 3 < data.length) :
    readAddr data off
      = some ⟨data.getD off 0, data.getD (off + 1) 0, data.getD (off + 2) 0,
          data.getD (off + 3) 0⟩ := by
  simp [readAddr, read8_of_lt data off (by omega), read8_of_lt data (off + 1) (by omega),
    read8_of_lt data (off + 2) (by omega), read8_of_lt data (off + 3) (by omega)]

theorem igmpSwitch_classify (addr : Nat) (payload : List Nat) (h8 : 8 ≤ payload.length) :
    igmpSwitch addr payload payload.length = classify addr payload := by
  unfold igmpSwitch classify
  simp only [offsetof_igmp_type, offsetof_igmp_code, offsetof_igmp_group]
  rw [read8_of_lt payload 0 (by omega), readAddr_of_lt payload 4 (by omega),
    read8_of_lt payload 1 (by omega)]
  simp only [Option.bind_eq_bind, Option.some_bind, IGMP_MEMBERSHIP_QUERY,
    IGMP_V1_MEMBERSHIP_REPORT, IGMP_V2_MEMBERSHIP_REPORT, IGMP_V3_MEMBERSHIP_REPORT,
    sizeof_igmpv3_query, ge_iff_le]
  generalize payload.getD 0 0 = t
  by_cases h11 : t = 17
  · subst h11; simp
  · by_cases h12 : t = 18
    · subst h12; simp
    · by_cases h16 : t = 22
      · subst h16; simp
      · simp [h11, h12, h16]

/-! ## Evaluations of the decoders -/

/-- C1: a Report of two records whose first record has `auxlen = 1` (four
auxiliary bytes) and no source. `mcast_parse_report` continues 8 bytes past
the first record, reads the auxiliary bytes as the header of the second record
and reports group 2.0.0.0 without a type, where the wire has 224.2.2.2 with
type 2. -/
theorem mcast_parse_report_aux_as_header :
    mcast_parse_report
        (reportHeader 0x22 0 0 0 0 0 2 ++
          encodeRecords [⟨1, ⟨224, 1, 1, 1⟩, [], [0, 0, 0, 0]⟩, ⟨2, ⟨224, 2, 2, 2⟩, [], []⟩]) 28
      = some [Line.v3Report 2, Line.record ⟨224, 1, 1, 1⟩ (some RecLabel.is_in) 0,
          Line.record ⟨2, 0, 0, 0⟩ none 0] ∧
    mcast_parse_report
        (reportHeader 0x22 0 0 0 0 0 2 ++
          encodeRecords [⟨1, ⟨224, 1, 1, 1⟩, [], [0, 0, 0, 0]⟩, ⟨2, ⟨224, 2, 2, 2⟩, [], []⟩]) 28
      ≠ some (Line.v3Report 2 ::
          [(⟨1, ⟨224, 1, 1, 1⟩, [], [0, 0, 0, 0]⟩ : WireRecord),
            ⟨2, ⟨224, 2, 2, 2⟩, [], []⟩].flatMap WireRecord.lines) := by
  decide

/-- C2, refuted: a Report that declares two records and holds one complete
record and nothing else. Fewer than 8 bytes are left for the second header,
yet the first record and its source address are reported. -/
theorem mcast_parse_report_not_atomic :
    Truncated [] ∧
    ¬ (∀ ls, mcast_parse_report
          (reportHeader 0x22 0 0 0 0 0 2 ++
            encodeRecords [⟨1, ⟨224, 1, 1, 1⟩, [⟨10, 0, 0, 1⟩], []⟩] ++ []) 20 = some ls →
        ls.filter Line.isRecordOutput = []) := by
  refine ⟨by decide, ?_⟩
  intro h
  have h2 := h [Line.v3Report 2, Line.record ⟨224, 1, 1, 1⟩ (some RecLabel.is_in) 1,
    Line.recordSource ⟨10, 0, 0, 1⟩] (by decide)
  revert h2
  decide

/-- C3: a v3 Query of 20 bytes with two sources, both 10.0.0.1. Wherever the
buffer lies, the two source lines are the low bytes of the pointer values
`addr + 12` and `addr + 16`, and they are not both 10.0.0.1. -/
theorem mcast_parse_query_prints_pointer (addr : Nat) :
    mcast_parse_query addr
        [0x11, 100, 0, 0, 0, 0, 0, 0, 2, 125, 0, 2, 10, 0, 0, 1, 10, 0, 0, 1] 20
      = some [Line.v3Query 100 ⟨0, 0, 0, 0⟩ 2 125 2,
          Line.querySource (ptrBytes (addr + 12)),
          Line.querySource (ptrBytes (addr + 16))] ∧
    mcast_parse_query addr
        [0x11, 100, 0, 0, 0, 0, 0, 0, 2, 125, 0, 2, 10, 0, 0, 1, 10, 0, 0, 1] 20
      ≠ some [Line.v3Query 100 ⟨0, 0, 0, 0⟩ 2 125 2,
          Line.querySource ⟨10, 0, 0, 1⟩, Line.querySource ⟨10, 0, 0, 1⟩] := by
  have h : mcast_parse_query addr
        [0x11, 100, 0, 0, 0, 0, 0, 0, 2, 125, 0, 2, 10, 0, 0, 1, 10, 0, 0, 1] 20
      = some [Line.v3Query 100 ⟨0, 0, 0, 0⟩ 2 125 2,
          Line.querySource (ptrBytes (addr + 12)),
          Line.querySource (ptrBytes (addr + 16))] := rfl
  refine ⟨h, ?_⟩
  rw [h]
  simp only [ptrBytes, ne_eq, Option.some.injEq, List.cons.injEq, Line.querySource.injEq,
    InAddr.mk.injEq, true_and, and_true]
  omega

/-- C4: a v3 Query of exactly 12 bytes that declares one source. Nothing
checks the count against the length: one source line is printed although the
buffer holds no source address. -/
theorem mcast_parse_query_unchecked_count (addr : Nat) :
    mcast_parse_query addr [0x11, 100, 0, 0, 0, 0, 0, 0, 2, 125, 0, 1] 12
      = some [Line.v3Query 100 ⟨0, 0, 0, 0⟩ 2 125 1,
          Line.querySource (ptrBytes (addr + 12))] ∧
    ((mcast_parse_query addr [0x11, 100, 0, 0, 0, 0, 0, 0, 2, 125, 0, 1] 12).getD []).countP
        Line.isQuerySource = 1 := by
  constructor <;> rfl

/-- C10: a packet of 20 bytes with `ip_hl = 5`. The payload is empty and the
type byte is read at offset 20, outside the packet. With `ip_hl = 15` on 20
bytes the payload length wraps to 2^64 - 40. -/
theorem mcast_parse_reads_past_end (addr : Nat) :
    mcast_parse addr
        [0x45, 0, 0, 20, 0, 0, 0, 0, 1, 2, 0, 0, 192, 168, 0, 1, 224, 0, 0, 22] 20
      = none ∧
    read8 (List.drop ((0x45 % 16) * 4)
        [0x45, 0, 0, 20, 0, 0, 0, 0, 1, 2, 0, 0, 192, 168, 0, 1, 224, 0, 0, 22]) 0 = none ∧
    payloadLen 20 ((0x4f % 16) * 4) = 2 ^ 64 - 40 := by
  refine ⟨rfl, rfl, ?_⟩
  decide

/-! ## Claims on the decoders -/

/-- C9: for a Report made of an 8-byte header that declares `rs.length`
records, the records `rs` themselves, each with `auxlen = 0` (8 + 4*nsrc
bytes), and any trailing bytes, `mcast_parse_report` reads inside the buffer
only and reports the record count and then, record by record in wire order,
the group, type label and source count of the record followed by exactly its
source addresses in order; a record with no source contributes its header
line alone. -/
theorem mcast_parse_report_no_aux (h0 h1 h2 h3 h4 h5 : Nat) (rs : List WireRecord)
    (trailing : List Nat) (_hn : rs.length < 65536)
    (hr : ∀ r ∈ rs, r.sources.length < 65536 ∧ r.aux = []) :
    mcast_parse_report
        (reportHeader h0 h1 h2 h3 h4 h5 rs.length ++ encodeRecords rs ++ trailing)
        (reportHeader h0 h1 h2 h3 h4 h5 rs.length ++ encodeRecords rs ++ trailing).length
      = some (Line.v3Report rs.length :: rs.flatMap WireRecord.lines) := by
  have hrd := read16be_encode rs.length h0 h1 h2 h3 h4 h5 (encodeRecords rs ++ trailing)
  have hloop := recordLoop_encode rs rs.length trailing (le_refl _) hr
  rw [List.append_assoc]
  unfold mcast_parse_report
  rw [hrd]
  have hl : (reportHeader h0 h1 h2 h3 h4 h5 rs.length ++ (encodeRecords rs ++ trailing)).length
      = (encodeRecords rs ++ trailing).length + 8 := by
    simp [reportHeader]
  have hd : (reportHeader h0 h1 h2 h3 h4 h5 rs.length ++ (encodeRecords rs ++ trailing)).drop 8
      = encodeRecords rs ++ trailing := by
    simp [reportHeader]
  have hnot : ¬ ((encodeRecords rs ++ trailing).length + 8 < 8) := by omega
  simp only [sizeof_igmpv3_report, hl, hd, hnot, if_false, Nat.add_sub_cancel,
    Option.bind_eq_bind, Option.some_bind, hloop, Nat.sub_self, recordLoop, Option.map_some',
    List.append_nil]

/-- C9, at the two-record Report whose second record has `auxlen = 0` and
`nsrc = 0`. -/
theorem mcast_parse_report_no_aux_witness :
    ([recordOneSource, recordNoSource].length < 65536 ∧
      ∀ r ∈ [recordOneSource, recordNoSource], r.sources.length < 65536 ∧ r.aux = []) ∧
    mcast_parse_report
        (reportHeader 0x22 0 0 0 0 0 2 ++ encodeRecords [recordOneSource, recordNoSource] ++ [])
        28
      = some [Line.v3Report 2,
          Line.record ⟨224, 1, 1, 1⟩ (some RecLabel.is_in) 1,
          Line.recordSource ⟨10, 0, 0, 1⟩,
          Line.record ⟨224, 2, 2, 2⟩ (some RecLabel.is_ex) 0] :=
  ⟨⟨by decide, by decide⟩,
    mcast_parse_report_no_aux 0x22 0 0 0 0 0 [recordOneSource, recordNoSource] []
      (by decide) (by decide)⟩

/-- C2, amended: for a Report whose header declares `nrec` records and that
holds fewer complete records `rs` (each with `auxlen = 0`) followed by a tail
too short for the next record, `mcast_parse_report` reads inside the buffer
only and stops at the truncation: it reports the record count, the complete
records before the tail with their sources, and, when the 8 header bytes of
the cut record are there, that record's header line without any of its
sources. -/
theorem mcast_parse_report_truncated (h0 h1 h2 h3 h4 h5 nrec : Nat)
    (rs : List WireRecord) (tail : List Nat) (_hn : nrec < 65536) (hlt : rs.length < nrec)
    (hr : ∀ r ∈ rs, r.sources.length < 65536 ∧ r.aux = []) (ht : Truncated tail) :
    mcast_parse_report
        (reportHeader h0 h1 h2 h3 h4 h5 nrec ++ encodeRecords rs ++ tail)
        (reportHeader h0 h1 h2 h3 h4 h5 nrec ++ encodeRecords rs ++ tail).length
      = some (Line.v3Report nrec :: (rs.flatMap WireRecord.lines ++ headerLine tail)) := by
  have hrd := read16be_encode nrec h0 h1 h2 h3 h4 h5 (encodeRecords rs ++ tail)
  have hloop := recordLoop_encode rs nrec tail (le_of_lt hlt) hr
  obtain ⟨k, hk⟩ : ∃ k, nrec - rs.length = k + 1 := ⟨nrec - rs.length - 1, by omega⟩
  rw [hk, recordLoop_truncated k tail ht] at hloop
  rw [List.append_assoc]
  unfold mcast_parse_report
  rw [hrd]
  have hl : (reportHeader h0 h1 h2 h3 h4 h5 nrec ++ (encodeRecords rs ++ tail)).length
      = (encodeRecords rs ++ tail).length + 8 := by
    simp [reportHeader]
  have hd : (reportHeader h0 h1 h2 h3 h4 h5 nrec ++ (encodeRecords rs ++ tail)).drop 8
      = encodeRecords rs ++ tail := by
    simp [reportHeader]
  have hnot : ¬ ((encodeRecords rs ++ tail).length + 8 < 8) := by omega
  simp only [sizeof_igmpv3_report, hl, hd, hnot, if_false, Nat.add_sub_cancel,
    Option.bind_eq_bind, Option.some_bind, hloop, Option.map_some']

/-- C2, amended, at a Report that declares two records and holds one complete
record and the bare header of a second one that declares one source. -/
theorem mcast_parse_report_truncated_witness :
    ((2 : Nat) < 65536 ∧ [recordOneSource].length < 2 ∧
      (∀ r ∈ [recordOneSource], r.sources.length < 65536 ∧ r.aux = []) ∧
      Truncated cutRecord) ∧
    mcast_parse_report
        (reportHeader 0x22 0 0 0 0 0 2 ++ encodeRecords [recordOneSource] ++ cutRecord) 28
      = some [Line.v3Report 2,
          Line.record ⟨224, 1, 1, 1⟩ (some RecLabel.is_in) 1,
          Line.recordSource ⟨10, 0, 0, 1⟩,
          Line.record ⟨224, 3, 3, 3⟩ (some RecLabel.to_in) 1] :=
  ⟨⟨by decide, by decide, by decide, by decide⟩,
    mcast_parse_report_truncated 0x22 0 0 0 0 0 2 [recordOneSource] cutRecord
      (by decide) (by decide) (by decide) (by decide)⟩

/-- C5: for a packet whose payload (the bytes after the `4 * ip_hl` header
bytes) has at least 8 bytes, `mcast_parse` prints the IP addresses and then
classifies the payload by its first byte and its length alone: 0x11 with 12
bytes or more is decoded by `mcast_parse_query`, 0x11 with fewer gives a
legacy Query with the group at bytes 4-7, 0x12 and 0x16 give a v1 and a v2
Report with the code at byte 1 and the group at bytes 4-7, 0x22 is decoded by
`mcast_parse_report`, and any other type byte gives no line. -/
theorem mcast_parse_classifies (addr : Nat) (pkt : List Nat)
    (h20 : 20 ≤ pkt.length) (hmax : pkt.length < 2 ^ 64)
    (h8 : (pkt.getD 0 0 % 16) * 4 + 8 ≤ pkt.length) :
    mcast_parse addr pkt pkt.length
      = (classify (addr + (pkt.getD 0 0 % 16) * 4) (pkt.drop ((pkt.getD 0 0 % 16) * 4))).map
          (fun out =>
            Line.ipHeader
              ⟨pkt.getD 12 0, pkt.getD 13 0, pkt.getD 14 0, pkt.getD 15 0⟩
              ⟨pkt.getD 16 0, pkt.getD 17 0, pkt.getD 18 0, pkt.getD 19 0⟩ :: out) := by
  unfold mcast_parse
  simp only [offsetof_ip_src, offsetof_ip_dst]
  rw [read8_of_lt pkt 0 (by omega), readAddr_of_lt pkt 12 (by omega),
    readAddr_of_lt pkt 16 (by omega)]
  have hlt : ¬ (pkt.length < sizeof_ip) := by simp [sizeof_ip]; omega
  have hlen : payloadLen pkt.length ((pkt.getD 0 0 % 16) * 4)
      = (pkt.drop ((pkt.getD 0 0 % 16) * 4)).length := by
    simp only [payloadLen, SIZE_MAX1, List.length_drop]
    omega
  simp only [hlt, if_false, Option.bind_eq_bind, Option.some_bind, hlen]
  rw [igmpSwitch_classify _ _ (by simp only [List.length_drop]; omega)]
  cases classify (addr + (pkt.getD 0 0 % 16) * 4) (pkt.drop ((pkt.getD 0 0 % 16) * 4)) <;> rfl

/-- C5, at a 28-byte packet that carries an IGMPv2 Report. -/
theorem mcast_parse_classifies_witness :
    (20 ≤ v2ReportPacket.length ∧ v2ReportPacket.length < 2 ^ 64 ∧
      (v2ReportPacket.getD 0 0 % 16) * 4 + 8 ≤ v2ReportPacket.length) ∧
    mcast_parse 0 v2ReportPacket 28
      = some [Line.ipHeader ⟨192, 168, 0, 1⟩ ⟨224, 0, 0, 22⟩,
          Line.v2Report 9 ⟨224, 1, 1, 1⟩] :=
  ⟨⟨by decide, by decide, by decide⟩,
    mcast_parse_classifies 0 v2ReportPacket (by decide) (by decide) (by decide)⟩

end McastQuery
